import Mathlib

/-!
Verification of the reconciliation logic of import_adstat.py.

The development shallowly embeds, as pure Lean functions:
- the destination table ad_campaigns declared by create_table, modelled as
  the list of its rows in insertion order (StatRow);
- the batched INSERT ... ON CONFLICT DO UPDATE loop of save_data
  (pybatches, upsertRow, executemanyUpsert, save_data);
- the control flow of save_data under its try/except psycopg2.Error
  wrapper when batch writes may raise (save_dataFlow);
- the report-response extraction of fetch_data (reportResults);
- the top-level control flow of main, with oracles for the failure points
  (World, mainRun).
-/

/-- One row of the destination table ad_campaigns as declared by
create_table. The SERIAL surrogate primary key id is omitted: it is
generated by the database and never supplied or read by the program. SQL
REAL columns are modelled as rationals, DATE as a natural-number day
index, BIGINT and INT as integers, TEXT arrays as string lists, VARCHAR
and TEXT as strings. Column nullability is not modelled; no claim depends
on NULL values. -/
structure StatRow where
  date : Nat
  unit : Int
  campaign_plat : String
  ad_text : String
  target_topics : List String
  target_channels : List String
  target_langs : List String
  spent : Rat
  impressions : Rat
  goals : Rat
  price_target : Rat
  cpm : Rat
  object : String
  account_uid : String
  account_name : String
  target_countries : List String
  target_user_locations : List String
  target_user_channels : List String
  ad_type : String
  ad_id : Int
  clicks : Int
  cpc : Rat
  ctr : Rat
  promote_url : String
  website_name : String
  views_per_users : Int
  button_type : String
  media_type : String
  only_crypto : Bool
  exclude_crypto : Bool
deriving DecidableEq

/-- The natural key of a row: the UNIQUE (date, unit, ad_id) constraint
declared by create_table. -/
def naturalKey (r : StatRow) : Nat × Int × Int := (r.date, r.unit, r.ad_id)

/-- Whether a stored row carries key k. -/
def matchesKey (k : Nat × Int × Int) (r : StatRow) : Bool :=
  decide (naturalKey r = k)

/-- Whether some row of the table carries key k. -/
def memKey (k : Nat × Int × Int) (t : List StatRow) : Bool :=
  t.any (matchesKey k)

/-- The ON CONFLICT (date, unit, ad_id) DO UPDATE SET clause of save_data:
every non-key column of the stored row is replaced by the EXCLUDED (new)
value. The key columns date, unit, ad_id are not in the SET list and are
kept from the stored row. -/
def onConflictUpdate (old excluded : StatRow) : StatRow :=
  { old with
    campaign_plat := excluded.campaign_plat
    ad_text := excluded.ad_text
    target_topics := excluded.target_topics
    target_channels := excluded.target_channels
    target_langs := excluded.target_langs
    spent := excluded.spent
    impressions := excluded.impressions
    goals := excluded.goals
    price_target := excluded.price_target
    cpm := excluded.cpm
    object := excluded.object
    account_uid := excluded.account_uid
    account_name := excluded.account_name
    target_countries := excluded.target_countries
    target_user_locations := excluded.target_user_locations
    target_user_channels := excluded.target_user_channels
    ad_type := excluded.ad_type
    clicks := excluded.clicks
    cpc := excluded.cpc
    ctr := excluded.ctr
    promote_url := excluded.promote_url
    website_name := excluded.website_name
    views_per_users := excluded.views_per_users
    button_type := excluded.button_type
    media_type := excluded.media_type
    only_crypto := excluded.only_crypto
    exclude_crypto := excluded.exclude_crypto }

/-- Effect on the table of one parameter set of the INSERT ... ON CONFLICT
DO UPDATE statement of save_data: if some stored row carries the new
row's natural key, the conflicting row is updated in place by the DO
UPDATE SET clause; otherwise the row is appended. Under the UNIQUE
constraint at most one stored row can match; the map covers exactly that
row. -/
def upsertRow (t : List StatRow) (r : StatRow) : List StatRow :=
  if memKey (naturalKey r) t then
    t.map fun s => if matchesKey (naturalKey r) s then onConflictUpdate s r else s
  else t ++ [r]

/-- cursor.executemany over one batch: psycopg2 executes the statement
once per parameter set, in the order of the batch. -/
def executemanyUpsert (t : List StatRow) (batch : List StatRow) : List StatRow :=
  batch.foldl upsertRow t

/-- The batches of the loop in save_data, lines 145-146:
for i in range(0, len(data), batch_size): batch = data[i : i + batch_size].
Python's range(0, n, bs) has ceil(n / bs) = (n + bs - 1) / bs elements
0, bs, 2*bs, ...; the slice data[i : i + bs] drops i elements and takes at
most bs. Python's range raises ValueError on step 0, so theorems that vary
the batch size assume 0 < bs; the program always calls with the default
batch_size of 1000. -/
def pybatches {α : Type} (bs : Nat) (data : List α) : List (List α) :=
  (List.range ((data.length + bs - 1) / bs)).map fun j => (data.drop (j * bs)).take bs

/-- save_data on the success path (no batch write raises): the batches are
written in order, each batch row by row by executemany. -/
def save_data (t : List StatRow) (data : List StatRow) (bs : Nat) : List StatRow :=
  (pybatches bs data).foldl executemanyUpsert t

/-- The invariant enforced by the UNIQUE (date, unit, ad_id) constraint:
no two rows of the table share a natural key. -/
def KeyUnique (t : List StatRow) : Prop := (t.map naturalKey).Nodup

/-- A concrete row with the given key columns and spent metric, all other
columns at neutral values; used to instantiate theorems. -/
def mkRow (d : Nat) (u a : Int) (sp : Rat) : StatRow :=
  { date := d, unit := u, campaign_plat := "", ad_text := "",
    target_topics := [], target_channels := [], target_langs := [],
    spent := sp, impressions := 0, goals := 0, price_target := 0, cpm := 0,
    object := "", account_uid := "", account_name := "",
    target_countries := [], target_user_locations := [],
    target_user_channels := [], ad_type := "", ad_id := a, clicks := 0,
    cpc := 0, ctr := 0, promote_url := "", website_name := "",
    views_per_users := 0, button_type := "", media_type := "",
    only_crypto := false, exclude_crypto := false }

/-- Control flow of save_data's batch loop under the surrounding
try/except psycopg2.Error (lines 144-198), over the number of remaining
batches and the index of the next batch: failsAt j says the executemany
call for batch j raises a database error. Returns the indices of the
batches for which executemany was called, whether the red
"Error inserting or updating data" line was printed, and whether an
exception escapes save_data. The except clause catches the database
error, prints, and falls off the end of the function, so nothing
propagates to the caller. -/
def save_dataFlow (failsAt : Nat → Bool) : Nat → Nat → List Nat × Bool × Bool
  | 0, _ => ([], false, false)
  | Nat.succ n, j =>
    if failsAt j then ([j], true, false)
    else
      let r := save_dataFlow failsAt n (j + 1)
      (j :: r.1, r.2.1, r.2.2)

/-- Outcome of the fetch_data call in main: either the report rows, or a
requests.RequestException raised during the HTTP exchange (caught at line
244, logged red, followed by sys.exit(1)). -/
inductive FetchOutcome where
  | ok (rows : List StatRow)
  | requestError
deriving DecidableEq

/-- Oracles for the failure points of one invocation of main, plus the
prior contents of the destination table. connectError: psycopg2.connect
at line 264 raises (caught by main's except psycopg2.Error at line 278,
logged, normal return). tableCreateError: a psycopg2.Error inside
create_table (caught at line 133, logged red, sys.exit(1)); since the DDL
uses CREATE TABLE IF NOT EXISTS, an already-existing table is not an
error, so any such error has a reason other than the table already
existing. create_database swallows its own errors at lines 67-68 without
affecting the rest of the run, so it carries no oracle here. Batch-write
failures inside save_data are modelled separately by save_dataFlow. -/
structure World where
  connectError : Bool
  tableCreateError : Bool
  fetch : FetchOutcome
  table : List StatRow
deriving DecidableEq

/-- Observables of one invocation of main: how many times the fetch step
ran, the destination table afterwards, the process exit status (0 when
main falls through normally), and which red error lines were printed. -/
structure MainResult where
  fetchAttempts : Nat
  table : List StatRow
  exitCode : Nat
  fetchErrorLogged : Bool
  tableErrorLogged : Bool
deriving DecidableEq

/-- Control flow of main (lines 249-280): connect, create_table,
fetch_data, save_data in sequence; sys.exit(1) raises SystemExit, which
except psycopg2.Error does not catch, so the process terminates with
status 1 at the first such call. There is no loop: each stage runs at
most once. -/
def mainRun (w : World) : MainResult :=
  if w.connectError then
    { fetchAttempts := 0, table := w.table, exitCode := 0,
      fetchErrorLogged := false, tableErrorLogged := false }
  else if w.tableCreateError then
    { fetchAttempts := 0, table := w.table, exitCode := 1,
      fetchErrorLogged := false, tableErrorLogged := true }
  else
    match w.fetch with
    | .requestError =>
      { fetchAttempts := 1, table := w.table, exitCode := 1,
        fetchErrorLogged := true, tableErrorLogged := false }
    | .ok rows =>
      { fetchAttempts := 1, table := save_data w.table rows 1000,
        exitCode := 0, fetchErrorLogged := false, tableErrorLogged := false }

/-- Line 243 of fetch_data: return r.json().get("results", []). The JSON
body of the report response is modelled as an association list from keys
to row lists; a body without a "results" key yields the empty list rather
than raising. -/
def reportResults (body : List (String × List StatRow)) : List StatRow :=
  match body.lookup "results" with
  | some rows => rows
  | none => []

example : upsertRow [mkRow 1 5 5 1] (mkRow 1 7 7 2) = [mkRow 1 5 5 1, mkRow 1 7 7 2] := by decide

example : upsertRow [mkRow 1 5 5 1] (mkRow 1 5 5 2) = [mkRow 1 5 5 2] := by decide

example : save_data [mkRow 1 5 5 1] [mkRow 1 7 7 2, mkRow 1 5 5 3] 1000 =
    [mkRow 1 5 5 3, mkRow 1 7 7 2] := by decide

example : pybatches 2 [1, 2, 3, 4, 5] = [[1, 2], [3, 4], [5]] := by decide

example : save_dataFlow (fun j => decide (j = 1)) 4 0 = ([0, 1], true, false) := by decide

theorem naturalKey_onConflictUpdate (a b : StatRow) :
    naturalKey (onConflictUpdate a b) = naturalKey a := rfl

theorem onConflictUpdate_of_key_eq (a b : StatRow) (h : naturalKey a = naturalKey b) :
    onConflictUpdate a b = b := by
  cases a; cases b
  simp only [naturalKey, Prod.mk.injEq] at h
  simp_all [onConflictUpdate]

theorem onConflictUpdate_congr (a b d : StatRow) (h : naturalKey a = naturalKey b) :
    onConflictUpdate a d = onConflictUpdate b d := by
  cases a; cases b
  simp only [naturalKey, Prod.mk.injEq] at h
  simp_all [onConflictUpdate]

theorem matchesKey_iff {k : Nat × Int × Int} {r : StatRow} :
    matchesKey k r = true ↔ naturalKey r = k := by
  simp [matchesKey]

theorem memKey_iff {k : Nat × Int × Int} {t : List StatRow} :
    memKey k t = true ↔ ∃ r ∈ t, naturalKey r = k := by
  simp [memKey, List.any_eq_true, matchesKey]

theorem pybatches_nil {α : Type} (bs : Nat) : pybatches bs ([] : List α) = [] := by
  unfold pybatches
  rw [List.length_nil]
  have h : (0 + bs - 1) / bs = 0 := by
    cases bs with
    | zero => rfl
    | succ b => exact Nat.div_eq_of_lt (by omega)
  rw [h]
  rfl

theorem pybatches_cons {α : Type} (bs : Nat) (hbs : 0 < bs) (l : List α) (hl : l ≠ []) :
    pybatches bs l = l.take bs :: pybatches bs (l.drop bs) := by
  have hn : 0 < l.length := List.length_pos.mpr hl
  have hk : (l.length + bs - 1) / bs = (l.length - 1) / bs + 1 := by
    have e : l.length + bs - 1 = (l.length - 1) + bs := by omega
    rw [e, Nat.add_div_right _ hbs]
  have hk2 : ((l.drop bs).length + bs - 1) / bs = (l.length - 1) / bs := by
    rw [List.length_drop]
    rcases Nat.le_total l.length bs with h | h
    · have e1 : l.length - bs + bs - 1 = bs - 1 := by omega
      have e2 : (bs - 1) / bs = 0 := Nat.div_eq_of_lt (by omega)
      have e3 : (l.length - 1) / bs = 0 := Nat.div_eq_of_lt (by omega)
      rw [e1, e2, e3]
    · have e1 : l.length - bs + bs - 1 = l.length - 1 := by omega
      rw [e1]
  unfold pybatches
  rw [hk, hk2, List.range_succ_eq_map, List.map_cons, List.map_map]
  congr 1
  · simp
  · apply List.map_congr_left
    intro j hj
    simp only [Function.comp_apply, List.drop_drop]
    congr 2
    rw [Nat.succ_mul]
    omega

theorem save_data_eq_fold (bs : Nat) (hbs : 0 < bs) :
    ∀ (data t : List StatRow), save_data t data bs = data.foldl upsertRow t := by
  have key : ∀ (n : Nat) (data t : List StatRow), data.length ≤ n →
      save_data t data bs = data.foldl upsertRow t := by
    intro n
    induction n with
    | zero =>
      intro data t h
      have : data = [] := List.eq_nil_of_length_eq_zero (by omega)
      subst this
      simp [save_data, pybatches_nil]
    | succ n ih =>
      intro data t h
      cases data with
      | nil => simp [save_data, pybatches_nil]
      | cons a l =>
        rw [save_data, pybatches_cons bs hbs (a :: l) (by simp), List.foldl_cons]
        have h2 : ((a :: l).drop bs).length ≤ n := by
          rw [List.length_drop]
          simp only [List.length_cons] at h ⊢
          omega
        have ihh := ih ((a :: l).drop bs) (executemanyUpsert t ((a :: l).take bs)) h2
        rw [save_data] at ihh
        rw [ihh, executemanyUpsert, ← List.foldl_append, List.take_append_drop]
  intro data t
  exact key data.length data t (Nat.le_refl _)

theorem save_data_nil (t : List StatRow) (bs : Nat) : save_data t [] bs = t := by
  simp [save_data, pybatches_nil]

theorem pybatches_flatten {α : Type} (bs : Nat) (hbs : 0 < bs) :
    ∀ l : List α, (pybatches bs l).flatten = l := by
  have key : ∀ (n : Nat) (l : List α), l.length ≤ n → (pybatches bs l).flatten = l := by
    intro n
    induction n with
    | zero =>
      intro l h
      have : l = [] := List.eq_nil_of_length_eq_zero (by omega)
      subst this
      rw [pybatches_nil]
      rfl
    | succ n ih =>
      intro l h
      cases l with
      | nil => rw [pybatches_nil]; rfl
      | cons a l =>
        rw [pybatches_cons bs hbs (a :: l) (by simp), List.flatten_cons]
        have h2 : ((a :: l).drop bs).length ≤ n := by
          rw [List.length_drop]
          simp only [List.length_cons] at h ⊢
          omega
        rw [ih _ h2, List.take_append_drop]
  intro l
  exact key l.length l (Nat.le_refl _)

theorem pybatches_length_le {α : Type} (bs : Nat) (l : List α) :
    ∀ b ∈ pybatches bs l, b.length ≤ bs := by
  intro b hb
  obtain ⟨j, hj, rfl⟩ := List.mem_map.mp hb
  exact List.length_take_le bs (l.drop (j * bs))

theorem naturalKey_upsertMap (d s : StatRow) :
    naturalKey (if matchesKey (naturalKey d) s then onConflictUpdate s d else s) =
      naturalKey s := by
  by_cases hm : matchesKey (naturalKey d) s = true
  · rw [if_pos hm, naturalKey_onConflictUpdate]
  · rw [if_neg hm]

theorem memKey_upsertRow_self (t : List StatRow) (d : StatRow) :
    memKey (naturalKey d) (upsertRow t d) = true := by
  unfold upsertRow
  by_cases hc : memKey (naturalKey d) t = true
  · rw [if_pos hc]
    rw [memKey_iff] at hc ⊢
    obtain ⟨s, hs, hks⟩ := hc
    refine ⟨if matchesKey (naturalKey d) s then onConflictUpdate s d else s,
      List.mem_map_of_mem _ hs, ?_⟩
    rw [naturalKey_upsertMap, hks]
  · rw [if_neg hc, memKey_iff]
    exact ⟨d, List.mem_append_right t (List.mem_singleton.mpr rfl), rfl⟩

theorem memKey_upsertRow_mono (k : Nat × Int × Int) (t : List StatRow) (d : StatRow)
    (h : memKey k t = true) : memKey k (upsertRow t d) = true := by
  unfold upsertRow
  by_cases hc : memKey (naturalKey d) t = true
  · rw [if_pos hc]
    rw [memKey_iff] at h ⊢
    obtain ⟨s, hs, hks⟩ := h
    refine ⟨if matchesKey (naturalKey d) s then onConflictUpdate s d else s,
      List.mem_map_of_mem _ hs, ?_⟩
    rw [naturalKey_upsertMap, hks]
  · rw [if_neg hc]
    rw [memKey_iff] at h ⊢
    obtain ⟨s, hs, hks⟩ := h
    exact ⟨s, List.mem_append_left _ hs, hks⟩

theorem mem_upsertRow_of_key_ne (t : List StatRow) (d r : StatRow)
    (hne : naturalKey d ≠ naturalKey r) (hr : r ∈ t) : r ∈ upsertRow t d := by
  unfold upsertRow
  by_cases hc : memKey (naturalKey d) t = true
  · rw [if_pos hc]
    have hfix : (if matchesKey (naturalKey d) r then onConflictUpdate r d else r) = r := by
      rw [if_neg]
      rw [matchesKey_iff]
      exact fun hh => hne hh.symm
    exact hfix ▸ List.mem_map_of_mem _ hr
  · rw [if_neg hc]
    exact List.mem_append_left _ hr

theorem upsertRow_rows_key_eq (t : List StatRow) (d r : StatRow)
    (hr : r ∈ upsertRow t d) (hk : naturalKey r = naturalKey d) : r = d := by
  unfold upsertRow at hr
  by_cases hc : memKey (naturalKey d) t = true
  · rw [if_pos hc] at hr
    obtain ⟨s, hs, hfs⟩ := List.mem_map.mp hr
    by_cases hm : matchesKey (naturalKey d) s = true
    · rw [if_pos hm] at hfs
      rw [← hfs]
      exact onConflictUpdate_of_key_eq s d (matchesKey_iff.mp hm)
    · rw [if_neg hm] at hfs
      subst hfs
      exact absurd (matchesKey_iff.mpr hk) hm
  · rw [if_neg hc] at hr
    rcases List.mem_append.mp hr with hin | hin
    · exact absurd (memKey_iff.mpr ⟨r, hin, hk⟩) hc
    · exact List.mem_singleton.mp hin

theorem upsertRow_stable (t : List StatRow) (d : StatRow)
    (hmem : memKey (naturalKey d) t = true)
    (hall : ∀ r ∈ t, naturalKey r = naturalKey d → r = d) : upsertRow t d = t := by
  unfold upsertRow
  rw [if_pos hmem]
  have h : ∀ s ∈ t, (if matchesKey (naturalKey d) s then onConflictUpdate s d else s) = s := by
    intro s hs
    by_cases hm : matchesKey (naturalKey d) s = true
    · rw [if_pos hm]
      have hks : naturalKey s = naturalKey d := matchesKey_iff.mp hm
      rw [onConflictUpdate_of_key_eq s d hks]
      exact (hall s hs hks).symm
    · rw [if_neg hm]
  rw [List.map_congr_left h]
  simp

theorem memKey_foldl_mono (k : Nat × Int × Int) (ds : List StatRow) :
    ∀ t : List StatRow, memKey k t = true → memKey k (ds.foldl upsertRow t) = true := by
  induction ds with
  | nil => intro t h; exact h
  | cons d rest ih =>
    intro t h
    exact ih (upsertRow t d) (memKey_upsertRow_mono k t d h)

theorem memKey_foldl_input (ds : List StatRow) :
    ∀ (t : List StatRow) (d : StatRow), d ∈ ds →
      memKey (naturalKey d) (ds.foldl upsertRow t) = true := by
  induction ds with
  | nil => intro t d h; exact absurd h (List.not_mem_nil d)
  | cons e rest ih =>
    intro t d h
    rcases List.mem_cons.mp h with rfl | h2
    · exact memKey_foldl_mono (naturalKey d) rest (upsertRow t d) (memKey_upsertRow_self t d)
    · exact ih (upsertRow t e) d h2

theorem mem_foldl_of_key_ne (ds : List StatRow) :
    ∀ (t : List StatRow) (r : StatRow), r ∈ t →
      (∀ d ∈ ds, naturalKey d ≠ naturalKey r) → r ∈ ds.foldl upsertRow t := by
  induction ds with
  | nil => intro t r hr _; exact hr
  | cons e rest ih =>
    intro t r hr hne
    exact ih (upsertRow t e) r
      (mem_upsertRow_of_key_ne t e r (hne e (List.mem_cons_self e rest)) hr)
      (fun d hd => hne d (List.mem_cons_of_mem e hd))

theorem upsertRow_rows_stable (t : List StatRow) (e d : StatRow) (k : Nat × Int × Int)
    (hke : naturalKey e ≠ k) (hall : ∀ s ∈ t, naturalKey s = k → s = d) :
    ∀ r ∈ upsertRow t e, naturalKey r = k → r = d := by
  intro r hr hk
  unfold upsertRow at hr
  by_cases hc : memKey (naturalKey e) t = true
  · rw [if_pos hc] at hr
    obtain ⟨s, hs, hfs⟩ := List.mem_map.mp hr
    by_cases hm : matchesKey (naturalKey e) s = true
    · rw [if_pos hm] at hfs
      exfalso
      apply hke
      rw [← hk, ← hfs, naturalKey_onConflictUpdate]
      exact (matchesKey_iff.mp hm).symm
    · rw [if_neg hm] at hfs
      subst hfs
      exact hall s hs hk
  · rw [if_neg hc] at hr
    rcases List.mem_append.mp hr with hin | hin
    · exact hall r hin hk
    · rw [List.mem_singleton.mp hin] at hk
      exact absurd hk hke

theorem foldl_rows_stable (ds : List StatRow) (k : Nat × Int × Int) (d : StatRow)
    (hds : ∀ e ∈ ds, naturalKey e ≠ k) :
    ∀ t : List StatRow, (∀ s ∈ t, naturalKey s = k → s = d) →
      ∀ r ∈ ds.foldl upsertRow t, naturalKey r = k → r = d := by
  induction ds with
  | nil => intro t hall r hr hk; exact hall r hr hk
  | cons e rest ih =>
    intro t hall r hr hk
    exact ih (fun x hx => hds x (List.mem_cons_of_mem e hx)) (upsertRow t e)
      (upsertRow_rows_stable t e d k (hds e (List.mem_cons_self e rest)) hall) r hr hk

/-- Two tables agree except possibly at rows carrying key k (where both
still carry key k); the relation an in-place conflict update induces. -/
def keyFixed (k : Nat × Int × Int) (a b : StatRow) : Prop :=
  a = b ∨ (naturalKey a = k ∧ naturalKey b = k)

theorem keyFixed_key {k : Nat × Int × Int} {a b : StatRow} (h : keyFixed k a b) :
    naturalKey a = naturalKey b := by
  rcases h with rfl | ⟨h1, h2⟩
  · rfl
  · rw [h1, h2]

theorem any_congr_of_forall₂ {R : StatRow → StatRow → Prop} {l l' : List StatRow}
    (h : List.Forall₂ R l l') (p : StatRow → Bool) (hp : ∀ a b, R a b → p a = p b) :
    l.any p = l'.any p := by
  induction h with
  | nil => rfl
  | cons hab _ ih => simp only [List.any_cons, hp _ _ hab, ih]

theorem map_eq_of_forall₂ {R : StatRow → StatRow → Prop} {l l' : List StatRow}
    (h : List.Forall₂ R l l') (f : StatRow → StatRow)
    (hf : ∀ a b, R a b → f a = f b) : l.map f = l'.map f := by
  induction h with
  | nil => rfl
  | cons hab _ ih => simp only [List.map_cons, hf _ _ hab, ih]

theorem forall₂_map_map {R : StatRow → StatRow → Prop} {l l' : List StatRow}
    (h : List.Forall₂ R l l') (f : StatRow → StatRow)
    (hf : ∀ a b, R a b → R (f a) (f b)) : List.Forall₂ R (l.map f) (l'.map f) := by
  induction h with
  | nil => exact List.Forall₂.nil
  | cons hab _ ih => exact List.Forall₂.cons (hf _ _ hab) ih

theorem forall₂_map_self {R : StatRow → StatRow → Prop} (f : StatRow → StatRow)
    (l : List StatRow) (h : ∀ a ∈ l, R (f a) a) : List.Forall₂ R (l.map f) l := by
  induction l with
  | nil => exact List.Forall₂.nil
  | cons a l ih =>
    exact List.Forall₂.cons (h a (List.mem_cons_self a l))
      (ih fun x hx => h x (List.mem_cons_of_mem a hx))

theorem forall₂_eq_of_no_key {k : Nat × Int × Int} {T T' : List StatRow}
    (h : List.Forall₂ (keyFixed k) T T') (hT : ∀ b ∈ T', naturalKey b ≠ k) : T = T' := by
  induction h with
  | nil => rfl
  | cons hab htail ih =>
    rename_i a b l l'
    rcases hab with rfl | ⟨h1, h2⟩
    · rw [ih fun x hx => hT x (List.mem_cons_of_mem _ hx)]
    · exact absurd h2 (hT b (List.mem_cons_self b l'))

theorem memKey_congr_of_forall₂ {k : Nat × Int × Int} {T T' : List StatRow}
    (h : List.Forall₂ (keyFixed k) T T') (k' : Nat × Int × Int) :
    memKey k' T = memKey k' T' := by
  unfold memKey
  exact any_congr_of_forall₂ h _ fun a b hab => by
    unfold matchesKey
    rw [keyFixed_key hab]

theorem upsertRow_keyFixed_of_key_eq {k : Nat × Int × Int} {T T' : List StatRow}
    (h : List.Forall₂ (keyFixed k) T T') (d : StatRow) (hk : naturalKey d = k) :
    upsertRow T d = upsertRow T' d := by
  unfold upsertRow
  rw [memKey_congr_of_forall₂ h (naturalKey d)]
  by_cases hc : memKey (naturalKey d) T' = true
  · rw [if_pos hc, if_pos hc]
    apply map_eq_of_forall₂ h
    intro a b hab
    rcases hab with rfl | ⟨h1, h2⟩
    · rfl
    · have hma : matchesKey (naturalKey d) a = true := matchesKey_iff.mpr (by rw [h1, hk])
      have hmb : matchesKey (naturalKey d) b = true := matchesKey_iff.mpr (by rw [h2, hk])
      rw [if_pos hma, if_pos hmb]
      exact onConflictUpdate_congr a b d (by rw [h1, h2])
  · rw [if_neg hc, if_neg hc]
    have hT : ∀ b ∈ T', naturalKey b ≠ k := by
      intro b hb hbk
      exact hc (memKey_iff.mpr ⟨b, hb, by rw [hbk, hk]⟩)
    rw [forall₂_eq_of_no_key h hT]

theorem upsertRow_keyFixed_of_key_ne {k : Nat × Int × Int} {T T' : List StatRow}
    (h : List.Forall₂ (keyFixed k) T T') (d : StatRow) (hk : naturalKey d ≠ k) :
    List.Forall₂ (keyFixed k) (upsertRow T d) (upsertRow T' d) := by
  unfold upsertRow
  rw [memKey_congr_of_forall₂ h (naturalKey d)]
  by_cases hc : memKey (naturalKey d) T' = true
  · rw [if_pos hc, if_pos hc]
    apply forall₂_map_map h
    intro a b hab
    rcases hab with rfl | ⟨h1, h2⟩
    · left; rfl
    · have hma : matchesKey (naturalKey d) a = false := by
        rw [← Bool.not_eq_true]
        rw [matchesKey_iff, h1]
        exact fun hh => hk hh.symm
      have hmb : matchesKey (naturalKey d) b = false := by
        rw [← Bool.not_eq_true]
        rw [matchesKey_iff, h2]
        exact fun hh => hk hh.symm
      rw [hma, hmb]
      simp only [Bool.false_eq_true, if_false]
      exact Or.inr ⟨h1, h2⟩
  · rw [if_neg hc, if_neg hc]
    exact List.rel_append h (List.Forall₂.cons (Or.inl rfl) List.Forall₂.nil)

theorem foldl_keyFixed {k : Nat × Int × Int} (ds : List StatRow) :
    ∀ T T' : List StatRow, List.Forall₂ (keyFixed k) T T' →
      (∃ e ∈ ds, naturalKey e = k) →
      ds.foldl upsertRow T = ds.foldl upsertRow T' := by
  induction ds with
  | nil =>
    intro T T' h he
    obtain ⟨e, he, _⟩ := he
    exact absurd he (List.not_mem_nil e)
  | cons e rest ih =>
    intro T T' h he
    simp only [List.foldl_cons]
    by_cases hk : naturalKey e = k
    · rw [upsertRow_keyFixed_of_key_eq h e hk]
    · apply ih _ _ (upsertRow_keyFixed_of_key_ne h e hk)
      obtain ⟨x, hx, hxk⟩ := he
      rcases List.mem_cons.mp hx with rfl | hx2
      · exact absurd hxk hk
      · exact ⟨x, hx2, hxk⟩

theorem upsertRow_keyFixed_self (T : List StatRow) (d : StatRow)
    (hmem : memKey (naturalKey d) T = true) :
    List.Forall₂ (keyFixed (naturalKey d)) (upsertRow T d) T := by
  unfold upsertRow
  rw [if_pos hmem]
  apply forall₂_map_self
  intro s hs
  by_cases hm : matchesKey (naturalKey d) s = true
  · rw [if_pos hm]
    exact Or.inr ⟨by rw [naturalKey_onConflictUpdate]; exact matchesKey_iff.mp hm,
      matchesKey_iff.mp hm⟩
  · rw [if_neg hm]
    exact Or.inl rfl

theorem foldl_upsertRow_idem (ds : List StatRow) :
    ∀ t : List StatRow, ds.foldl upsertRow (ds.foldl upsertRow t) = ds.foldl upsertRow t := by
  induction ds with
  | nil => intro t; rfl
  | cons d rest ih =>
    intro t
    simp only [List.foldl_cons]
    have hmem : memKey (naturalKey d) (rest.foldl upsertRow (upsertRow t d)) = true :=
      memKey_foldl_mono (naturalKey d) rest (upsertRow t d) (memKey_upsertRow_self t d)
    by_cases hex : ∃ e ∈ rest, naturalKey e = naturalKey d
    · have hrel := upsertRow_keyFixed_self (rest.foldl upsertRow (upsertRow t d)) d hmem
      rw [foldl_keyFixed rest _ _ hrel hex]
      exact ih (upsertRow t d)
    · push_neg at hex
      have hall : ∀ r ∈ rest.foldl upsertRow (upsertRow t d),
          naturalKey r = naturalKey d → r = d :=
        foldl_rows_stable rest (naturalKey d) d hex (upsertRow t d)
          (fun s hs hks => upsertRow_rows_key_eq t d s hs hks)
      rw [upsertRow_stable _ d hmem hall]
      exact ih (upsertRow t d)

theorem keyUnique_upsertRow (t : List StatRow) (d : StatRow) (h : KeyUnique t) :
    KeyUnique (upsertRow t d) := by
  unfold upsertRow
  by_cases hc : memKey (naturalKey d) t = true
  · rw [if_pos hc]
    unfold KeyUnique at h ⊢
    rw [List.map_map]
    have he : t.map (naturalKey ∘ fun s =>
        if matchesKey (naturalKey d) s then onConflictUpdate s d else s) = t.map naturalKey :=
      List.map_congr_left fun s _ => naturalKey_upsertMap d s
    rw [he]
    exact h
  · rw [if_neg hc]
    unfold KeyUnique at h ⊢
    rw [List.map_append]
    refine List.Nodup.append h (List.nodup_singleton _) ?_
    intro x hx hx2
    simp only [List.map_cons, List.map_nil, List.mem_singleton] at hx2
    subst hx2
    obtain ⟨s, hs, hks⟩ := List.mem_map.mp hx
    exact hc (memKey_iff.mpr ⟨s, hs, by simp [naturalKey] at hks ⊢; exact hks⟩)

theorem keyUnique_foldl (ds : List StatRow) :
    ∀ t : List StatRow, KeyUnique t → KeyUnique (ds.foldl upsertRow t) := by
  induction ds with
  | nil => intro t h; exact h
  | cons d rest ih =>
    intro t h
    exact ih (upsertRow t d) (keyUnique_upsertRow t d h)

theorem save_dataFlow_aux (failsAt : Nat → Bool) :
    ∀ (n start : Nat),
      (save_dataFlow failsAt n start).2.2 = false ∧
      (∀ i ∈ (save_dataFlow failsAt n start).1, start ≤ i) ∧
      (save_dataFlow failsAt n start).1.Nodup ∧
      (∀ j ∈ (save_dataFlow failsAt n start).1, failsAt j = true →
        ∀ i ∈ (save_dataFlow failsAt n start).1, i ≤ j) := by
  intro n
  induction n with
  | zero =>
    intro start
    refine ⟨rfl, ?_, List.nodup_nil, ?_⟩
    · intro i hi; exact absurd hi (List.not_mem_nil i)
    · intro j hj; exact absurd hj (List.not_mem_nil j)
  | succ n ih =>
    intro start
    by_cases hf : failsAt start = true
    · simp only [save_dataFlow, hf, if_true]
      refine ⟨by trivial, ?_, List.nodup_singleton _, ?_⟩
      · intro i hi
        rw [List.mem_singleton] at hi
        omega
      · intro j hj _ i hi
        rw [List.mem_singleton] at hj hi
        omega
    · have hf2 : failsAt start = false := by
        rw [← Bool.not_eq_true]
        exact hf
      obtain ⟨ih1, ih2, ih3, ih4⟩ := ih (start + 1)
      simp only [save_dataFlow, hf2, Bool.false_eq_true, if_false]
      refine ⟨ih1, ?_, ?_, ?_⟩
      · intro i hi
        rcases List.mem_cons.mp hi with rfl | hi2
        · exact Nat.le_refl i
        · exact Nat.le_of_succ_le (ih2 i hi2)
      · refine List.Nodup.cons ?_ ih3
        intro hmem
        have := ih2 start hmem
        omega
      · intro j hj hjf i hi
        rcases List.mem_cons.mp hj with rfl | hj2
        · exact absurd hjf hf
        · rcases List.mem_cons.mp hi with rfl | hi2
          · exact Nat.le_of_succ_le (ih2 j hj2)
          · exact ih4 j hj2 hjf i hi2

theorem save_dataFlow_logged (failsAt : Nat → Bool) :
    ∀ (n start j : Nat), j ∈ (save_dataFlow failsAt n start).1 → failsAt j = true →
      (save_dataFlow failsAt n start).2.1 = true := by
  intro n
  induction n with
  | zero => intro start j hj _; exact absurd hj (List.not_mem_nil j)
  | succ n ih =>
    intro start j hj hf
    by_cases hs : failsAt start = true
    · simp only [save_dataFlow, hs, if_true]
    · have hs2 : failsAt start = false := by
        rw [← Bool.not_eq_true]
        exact hs
      simp only [save_dataFlow, hs2, Bool.false_eq_true, if_false] at hj ⊢
      rcases List.mem_cons.mp hj with rfl | hj2
      · exact absurd hf hs
      · exact ih (start + 1) j hj2 hf

/-- Claim C4 (confirmed). Empty-fetch no-op: with an empty input the batch
loop of save_data runs zero times (there are no batches, so no executemany
call and, the function containing no delete statement, no write of any
kind), and the destination table is left completely unchanged. -/
theorem save_data_empty_fetch_noop (t : List StatRow) (bs : Nat) :
    pybatches bs ([] : List StatRow) = [] ∧ save_data t [] bs = t :=
  ⟨pybatches_nil bs, save_data_nil t bs⟩

/-- Claim C6 (confirmed). Idempotence: applying save_data twice in
succession with the same fetched rows yields the same destination-table
contents as applying it once. -/
theorem save_data_idempotent (t data : List StatRow) :
    save_data (save_data t data 1000) data 1000 = save_data t data 1000 := by
  simp only [save_data_eq_fold 1000 (by decide)]
  exact foldl_upsertRow_idem data t

/-- Claim C10 (confirmed). Missing-results default: when the report
response body has no "results" key, fetch_data returns the empty list
rather than raising, and the subsequent save_data is the empty-fetch
no-op that leaves the table unchanged. -/
theorem fetch_missing_results_empty (body : List (String × List StatRow))
    (h : body.lookup "results" = none) :
    reportResults body = [] ∧
    ∀ (t : List StatRow) (bs : Nat), save_data t (reportResults body) bs = t := by
  have he : reportResults body = [] := by
    unfold reportResults
    rw [h]
  exact ⟨he, fun t bs => by rw [he]; exact save_data_nil t bs⟩

/-- Witness for C10 at a concrete body lacking the "results" key. -/
theorem fetch_missing_results_empty_witness :
    reportResults [("detail", ([] : List StatRow))] = [] ∧
    ∀ (t : List StatRow) (bs : Nat),
      save_data t (reportResults [("detail", ([] : List StatRow))]) bs = t :=
  fetch_missing_results_empty [("detail", [])] (by decide)

/-- Claim C9 (confirmed). Fatal table-creation failure: when create_table
raises a database error (necessarily for a reason other than the table
already existing, since the DDL uses CREATE TABLE IF NOT EXISTS), main
terminates immediately through sys.exit(1): exit status 1, zero fetch
attempts, the table untouched, the red table-creation error logged; no
retry and no continuation occur. -/
theorem create_table_failure_fatal (w : World) (hc : w.connectError = false)
    (ht : w.tableCreateError = true) :
    mainRun w = ⟨0, w.table, 1, false, true⟩ := by
  unfold mainRun
  rw [hc, ht]
  simp

/-- Witness for C9 at a concrete world whose create_table raises. -/
theorem create_table_failure_fatal_witness :
    mainRun ⟨false, true, FetchOutcome.ok [], [mkRow 1 1 1 1]⟩ =
      ⟨0, [mkRow 1 1 1 1], 1, false, true⟩ :=
  create_table_failure_fatal _ rfl rfl

/-- Claim C2 counterexample: in a run whose fetch step raises a request
error, main makes exactly one attempt (there is no retry loop), not 10,
and the process terminates through sys.exit(1), a distinct fatal
escalation with a nonzero exit status. -/
theorem main_retry_counterexample :
    (mainRun ⟨false, false, FetchOutcome.requestError, []⟩).fetchAttempts = 1 ∧
    (mainRun ⟨false, false, FetchOutcome.requestError, []⟩).fetchAttempts ≠ 10 ∧
    (mainRun ⟨false, false, FetchOutcome.requestError, []⟩).exitCode = 1 := by
  refine ⟨rfl, by decide, rfl⟩

/-- Claim C2 as amended: if the fetch step raises a request error, the
run makes exactly one fetch attempt (the code has no retry loop), the
failure is caught and logged red inside fetch_data, no database rows are
written (the table is unchanged), and the process exits with status 1 via
sys.exit. -/
theorem main_fetch_error_single_attempt (w : World) (hc : w.connectError = false)
    (ht : w.tableCreateError = false) (hf : w.fetch = FetchOutcome.requestError) :
    mainRun w = ⟨1, w.table, 1, true, false⟩ := by
  unfold mainRun
  rw [hc, ht, hf]
  simp

/-- Witness for amended C2 at a concrete world whose fetch raises. -/
theorem main_fetch_error_single_attempt_witness :
    mainRun ⟨false, false, FetchOutcome.requestError, [mkRow 1 1 1 1]⟩ =
      ⟨1, [mkRow 1 1 1 1], 1, true, false⟩ :=
  main_fetch_error_single_attempt _ rfl rfl rfl

/-- Claim C5 counterexample: with three batches whose first write fails,
the loop stops (only batch 0 is ever issued) and the red error line is
printed, but no exception escapes save_data: the error is swallowed by
the except clause, so it is NOT surfaced to the Run Controller as the
claim states. -/
theorem save_data_write_failure_counterexample :
    (save_dataFlow (fun j => decide (j = 0)) 3 0).1 = [0] ∧
    (save_dataFlow (fun j => decide (j = 0)) 3 0).2.1 = true ∧
    (save_dataFlow (fun j => decide (j = 0)) 3 0).2.2 = false := by
  decide

/-- Claim C5 as amended: when the write of an issued batch fails, no
further batch is issued after the failing one, no batch is issued twice
(no partial-batch retry), and the failure is caught and logged red inside
save_data rather than propagating to the Run Controller: no exception
escapes save_data. -/
theorem save_data_write_failure_aborts_swallowed (failsAt : Nat → Bool) (n j : Nat)
    (hj : j ∈ (save_dataFlow failsAt n 0).1) (hf : failsAt j = true) :
    (∀ i ∈ (save_dataFlow failsAt n 0).1, i ≤ j) ∧
    (save_dataFlow failsAt n 0).1.Nodup ∧
    (save_dataFlow failsAt n 0).2.1 = true ∧
    (save_dataFlow failsAt n 0).2.2 = false := by
  obtain ⟨h1, _, h3, h4⟩ := save_dataFlow_aux failsAt n 0
  exact ⟨h4 j hj hf, h3, save_dataFlow_logged failsAt n 0 j hj hf, h1⟩

/-- Witness for amended C5: three batches, the write of batch 1 fails. -/
theorem save_data_write_failure_witness :
    (∀ i ∈ (save_dataFlow (fun j => decide (j = 1)) 3 0).1, i ≤ 1) ∧
    (save_dataFlow (fun j => decide (j = 1)) 3 0).1.Nodup ∧
    (save_dataFlow (fun j => decide (j = 1)) 3 0).2.1 = true ∧
    (save_dataFlow (fun j => decide (j = 1)) 3 0).2.2 = false :=
  save_data_write_failure_aborts_swallowed (fun j => decide (j = 1)) 3 1 (by decide) (by decide)

/-- Claim C1 counterexample: save_data has no delete step. Starting from
a table holding one row dated 1 with natural key (1, 5, 5) and
reconciling with a single input row dated 1 with natural key (1, 7, 7),
the pre-existing row dated 1 survives, so the table's rows dated 1
afterwards are not exactly the input rows. -/
theorem save_data_delete_counterexample :
    mkRow 1 5 5 1 ∈ save_data [mkRow 1 5 5 1] [mkRow 1 7 7 2] 1000 ∧
    (save_data [mkRow 1 5 5 1] [mkRow 1 7 7 2] 1000).filter
      (fun r => decide (r.date = 1)) ≠ [mkRow 1 7 7 2] := by
  decide

/-- Claim C1 as amended: save_data performs no delete step: after
reconciliation every pre-existing row whose natural key does not occur in
the input is still present (in particular, rows dated D that the input
does not re-fetch are retained, not deleted), and every input row's
natural key is present in the table. -/
theorem save_data_no_delete (t data : List StatRow) (r : StatRow) (hr : r ∈ t)
    (hk : ∀ e ∈ data, naturalKey e ≠ naturalKey r) :
    r ∈ save_data t data 1000 ∧
    ∀ e ∈ data, memKey (naturalKey e) (save_data t data 1000) = true := by
  rw [save_data_eq_fold 1000 (by decide)]
  exact ⟨mem_foldl_of_key_ne data t r hr hk, fun e he => memKey_foldl_input data t e he⟩

/-- Witness for amended C1 at the same concrete instance as the
counterexample. -/
theorem save_data_no_delete_witness :
    mkRow 1 5 5 1 ∈ save_data [mkRow 1 5 5 1] [mkRow 1 7 7 2] 1000 ∧
    ∀ e ∈ [mkRow 1 7 7 2],
      memKey (naturalKey e) (save_data [mkRow 1 5 5 1] [mkRow 1 7 7 2] 1000) = true :=
  save_data_no_delete [mkRow 1 5 5 1] [mkRow 1 7 7 2] (mkRow 1 5 5 1) (by decide) (by decide)

/-- Claim C3 (confirmed). Upsert overwrite semantics: when a stored row
carries the input row's natural key, the ON CONFLICT update replaces
every non-key column with the new value wholesale, so the updated row is
exactly the new row; reconciling with that single input row rewrites
precisely the conflicting row and leaves every other row unchanged. No
accumulation or merging occurs. -/
theorem save_data_overwrites_wholesale (t : List StatRow) (old excluded : StatRow)
    (hmem : old ∈ t) (hk : naturalKey old = naturalKey excluded) :
    onConflictUpdate old excluded = excluded ∧
    save_data t [excluded] 1000 =
      t.map fun s => if matchesKey (naturalKey excluded) s then excluded else s := by
  refine ⟨onConflictUpdate_of_key_eq old excluded hk, ?_⟩
  rw [save_data_eq_fold 1000 (by decide)]
  simp only [List.foldl_cons, List.foldl_nil]
  unfold upsertRow
  rw [if_pos (memKey_iff.mpr ⟨old, hmem, hk⟩)]
  apply List.map_congr_left
  intro s hs
  by_cases hm : matchesKey (naturalKey excluded) s = true
  · rw [if_pos hm, if_pos hm]
    exact onConflictUpdate_of_key_eq s excluded (matchesKey_iff.mp hm)
  · rw [if_neg hm, if_neg hm]

/-- Witness for C3: a stored row with key (2, 3, 4) and spent 5 is
reconciled against a fetched row with the same key and spent 15/2 = 7.5;
the stored row becomes the fetched row (spent 7.5, not 12.5). -/
theorem save_data_overwrites_wholesale_witness :
    onConflictUpdate (mkRow 2 3 4 5) (mkRow 2 3 4 (mkRat 15 2)) = mkRow 2 3 4 (mkRat 15 2) ∧
    save_data [mkRow 2 3 4 5] [mkRow 2 3 4 (mkRat 15 2)] 1000 =
      [mkRow 2 3 4 5].map fun s =>
        if matchesKey (naturalKey (mkRow 2 3 4 (mkRat 15 2))) s
        then mkRow 2 3 4 (mkRat 15 2) else s :=
  save_data_overwrites_wholesale [mkRow 2 3 4 5] (mkRow 2 3 4 5) (mkRow 2 3 4 (mkRat 15 2))
    (List.mem_singleton.mpr rfl) rfl

/-- Claim C7 (confirmed). Batch-size invariance: save_data partitions the
input into consecutive batches of at most 1000 rows whose concatenation
in order is the input, and the final table contents are identical whether
the batch size is 1000, 1, or the number of input rows. -/
theorem save_data_batch_size_invariance (t data : List StatRow) (h : data ≠ []) :
    (pybatches 1000 data).flatten = data ∧
    (∀ b ∈ pybatches 1000 data, b.length ≤ 1000) ∧
    save_data t data 1000 = save_data t data 1 ∧
    save_data t data 1000 = save_data t data data.length := by
  refine ⟨pybatches_flatten 1000 (by decide) data, pybatches_length_le 1000 data, ?_, ?_⟩
  · rw [save_data_eq_fold 1000 (by decide), save_data_eq_fold 1 (by decide)]
  · rw [save_data_eq_fold 1000 (by decide),
      save_data_eq_fold data.length (List.length_pos.mpr h)]

/-- Witness for C7 on a concrete two-row input. -/
theorem save_data_batch_size_invariance_witness :
    (pybatches 1000 [mkRow 1 1 1 1, mkRow 1 2 2 2]).flatten = [mkRow 1 1 1 1, mkRow 1 2 2 2] ∧
    (∀ b ∈ pybatches 1000 [mkRow 1 1 1 1, mkRow 1 2 2 2], b.length ≤ 1000) ∧
    save_data [] [mkRow 1 1 1 1, mkRow 1 2 2 2] 1000 =
      save_data [] [mkRow 1 1 1 1, mkRow 1 2 2 2] 1 ∧
    save_data [] [mkRow 1 1 1 1, mkRow 1 2 2 2] 1000 =
      save_data [] [mkRow 1 1 1 1, mkRow 1 2 2 2] [mkRow 1 1 1 1, mkRow 1 2 2 2].length :=
  save_data_batch_size_invariance [] [mkRow 1 1 1 1, mkRow 1 2 2 2] (by decide)

/-- Claim C8 (confirmed). Natural-key uniqueness invariant: from any
starting table satisfying the UNIQUE (date, unit, ad_id) constraint, any
sequence of reconciliations (each a save_data with a positive batch size)
yields a table that still has at most one row per natural key. -/
theorem save_data_key_unique_invariant (fetches : List (List StatRow)) (t : List StatRow)
    (bs : Nat) (hbs : 0 < bs) (h : KeyUnique t) :
    KeyUnique (fetches.foldl (fun acc f => save_data acc f bs) t) := by
  induction fetches generalizing t with
  | nil => exact h
  | cons f rest ih =>
    simp only [List.foldl_cons]
    apply ih
    rw [save_data_eq_fold bs hbs]
    exact keyUnique_foldl f t h

/-- Witness for C8: two successive reconciliations from a one-row table. -/
theorem save_data_key_unique_invariant_witness :
    KeyUnique ([[mkRow 1 1 1 1, mkRow 1 2 2 2], [mkRow 1 1 1 3]].foldl
      (fun acc f => save_data acc f 1000) [mkRow 2 9 9 0]) :=
  save_data_key_unique_invariant [[mkRow 1 1 1 1, mkRow 1 2 2 2], [mkRow 1 1 1 3]]
    [mkRow 2 9 9 0] 1000 (by decide) (by unfold KeyUnique; decide)
